import Mathlib

/-!
# Verification development for `LTKH/template`

A shallow embedding of `src/funcs.go` and `src/processor.go`:

* byte strings are lists of naturals below 256 (`Bytes`);
* `getHash` is MD5 (RFC 1321) followed by lower-case hex encoding, as done by
  `crypto/md5` and `encoding/hex`;
* the file system touched by `GatherURL` is an explicit state `FileSys`, and
  `os.Stat`, `ioutil.ReadFile`, `ioutil.WriteFile` are functions on it;
* dynamically typed template values are the inductive type `Value`, tagged by
  their `reflect.Kind`; `float64` values are the type `F64` of IEEE-754 binary64
  data, with exact conversion functions;
* slices and maps are references into an explicit heap (`Heap`);
* a Go run-time panic is an `Except.error`.
-/

namespace Template

/-! ## Byte strings -/

/-- A Go `[]byte` or `string`: a list of bytes, each below 256. -/
abbrev Bytes := List Nat

/-- The bytes of an ASCII literal (one byte per character). -/
def bytesOf (s : String) : Bytes := s.toList.map Char.toNat

/-! ## MD5 (`crypto/md5`) and hex encoding (`encoding/hex`) -/

namespace MD5

/-- Per-round left-rotation amounts. -/
def shifts : List Nat :=
  [7, 12, 17, 22, 7, 12, 17, 22, 7, 12, 17, 22, 7, 12, 17, 22,
   5, 9, 14, 20, 5, 9, 14, 20, 5, 9, 14, 20, 5, 9, 14, 20,
   4, 11, 16, 23, 4, 11, 16, 23, 4, 11, 16, 23, 4, 11, 16, 23,
   6, 10, 15, 21, 6, 10, 15, 21, 6, 10, 15, 21, 6, 10, 15, 21]

/-- The sine-derived round constants. -/
def consts : List Nat :=
  [0xd76aa478, 0xe8c7b756, 0x242070db, 0xc1bdceee, 0xf57c0faf, 0x4787c62a, 0xa8304613, 0xfd469501,
   0x698098d8, 0x8b44f7af, 0xffff5bb1, 0x895cd7be, 0x6b901122, 0xfd987193, 0xa679438e, 0x49b40821,
   0xf61e2562, 0xc040b340, 0x265e5a51, 0xe9b6c7aa, 0xd62f105d, 0x02441453, 0xd8a1e681, 0xe7d3fbc8,
   0x21e1cde6, 0xc33707d6, 0xf4d50d87, 0x455a14ed, 0xa9e3e905, 0xfcefa3f8, 0x676f02d9, 0x8d2a4c8a,
   0xfffa3942, 0x8771f681, 0x6d9d6122, 0xfde5380c, 0xa4beea44, 0x4bdecfa9, 0xf6bb4b60, 0xbebfbc70,
   0x289b7ec6, 0xeaa127fa, 0xd4ef3085, 0x04881d05, 0xd9d4d039, 0xe6db99e5, 0x1fa27cf8, 0xc4ac5665,
   0xf4292244, 0x432aff97, 0xab9423a7, 0xfc93a039, 0x655b59c3, 0x8f0ccc92, 0xffeff47d, 0x85845dd1,
   0x6fa87e4f, 0xfe2ce6e0, 0xa3014314, 0x4e0811a1, 0xf7537e82, 0xbd3af235, 0x2ad7d2bb, 0xeb86d391]

/-- The modulus of 32-bit words. -/
def w32 : Nat := 4294967296

/-- Bitwise complement of a 32-bit word. -/
def not32 (x : Nat) : Nat := x ^^^ 4294967295

/-- Left rotation of a 32-bit word. -/
def rotl32 (x c : Nat) : Nat := ((x <<< c) ||| (x >>> (32 - c))) % w32

/-- The four chaining words. -/
structure State where
  a : Nat
  b : Nat
  c : Nat
  d : Nat
deriving DecidableEq, Repr

/-- Initial chaining value. -/
def init : State := ⟨0x67452301, 0xefcdab89, 0x98badcfe, 0x10325476⟩

/-- One of the 64 operations on a block given as 16 little-endian words. -/
def step (m : List Nat) (s : State) (i : Nat) : State :=
  let f :=
    if i < 16 then (s.b &&& s.c) ||| (not32 s.b &&& s.d)
    else if i < 32 then (s.d &&& s.b) ||| (not32 s.d &&& s.c)
    else if i < 48 then s.b ^^^ s.c ^^^ s.d
    else s.c ^^^ (s.b ||| not32 s.d)
  let g :=
    if i < 16 then i
    else if i < 32 then (5 * i + 1) % 16
    else if i < 48 then (3 * i + 5) % 16
    else (7 * i) % 16
  let t := (f + s.a + consts.getD i 0 + m.getD g 0) % w32
  ⟨s.d, (s.b + rotl32 t (shifts.getD i 0)) % w32, s.b, s.c⟩

/-- A little-endian 32-bit word from four bytes. -/
def word (bs : Bytes) : Nat :=
  bs.getD 0 0 % 256 + (bs.getD 1 0 % 256) * 256 + (bs.getD 2 0 % 256) * 65536
    + (bs.getD 3 0 % 256) * 16777216

/-- The 16 words of a 64-byte block. -/
def words (block : Bytes) : List Nat :=
  (List.range 16).map fun j => word ((block.drop (4 * j)).take 4)

/-- Compression of one 64-byte block into the chaining value. -/
def compress (s : State) (block : Bytes) : State :=
  let r := (List.range 64).foldl (step (words block)) s
  ⟨(s.a + r.a) % w32, (s.b + r.b) % w32, (s.c + r.c) % w32, (s.d + r.d) % w32⟩

/-- The little-endian bytes of the low `n` bytes of `x`. -/
def leBytes (n x : Nat) : Bytes :=
  (List.range n).map fun j => (x >>> (8 * j)) % 256

/-- The message followed by the MD5 padding: `0x80`, zeros up to 56 modulo 64,
and the bit length as 8 little-endian bytes. -/
def pad (msg : Bytes) : Bytes :=
  let zeros := (119 - msg.length % 64) % 64
  msg ++ 128 :: List.replicate zeros 0 ++ leBytes 8 ((8 * msg.length) % 18446744073709551616)

/-- The 16-byte digest. -/
def sum (msg : Bytes) : Bytes :=
  let p := pad msg
  let r := (List.range (p.length / 64)).foldl
    (fun s j => compress s ((p.drop (64 * j)).take 64)) init
  leBytes 4 r.a ++ leBytes 4 r.b ++ leBytes 4 r.c ++ leBytes 4 r.d

end MD5

/-- The lower-case hex digit of a nibble. -/
def hexDigit (n : Nat) : Char :=
  "0123456789abcdef".toList.getD (n % 16) '0'

/-- The function `hex.EncodeToString`. -/
def hexEncode (bs : Bytes) : String :=
  String.mk (bs.flatMap fun b => [hexDigit (b / 16), hexDigit b])

/-- The function `getHash` of `processor.go`: the hex MD5 fingerprint. -/
def getHash (data : Bytes) : String :=
  hexEncode (MD5.sum data)

/-! ## The file system seen by `GatherURL` -/

/-- Errors of the `os`/`ioutil` calls; `notExist` is the one recognised by
`os.IsNotExist`. -/
inductive FileErr
  | notExist
  | permission
  | device
deriving DecidableEq, Repr

/-- What is found at a path. `blocked` is a path whose status cannot be read
(for example a parent directory without search permission). A file carries its
content and whether it may be opened for reading. -/
inductive Node
  | absent
  | blocked
  | file (content : Bytes) (readable : Bool)
deriving DecidableEq, Repr

/-- The file system state: what each path holds, whether a path may be opened
for writing (created or truncated), and the largest size a file may reach (a
file size limit, or the space of the device): a write stops there with an
error. -/
structure FileSys where
  node : String → Node
  openable : String → Bool
  limit : Nat

/-- The function `os.Stat`, reduced to its error result. -/
def osStat (fs : FileSys) (p : String) : Except FileErr Unit :=
  match fs.node p with
  | .absent => .error .notExist
  | .blocked => .error .permission
  | .file _ _ => .ok ()

/-- The function `os.IsNotExist`. -/
def osIsNotExist (e : FileErr) : Bool :=
  match e with
  | .notExist => true
  | _ => false

/-- The function `ioutil.ReadFile`. -/
def ReadFile (fs : FileSys) (p : String) : Except FileErr Bytes :=
  match fs.node p with
  | .absent => .error .notExist
  | .blocked => .error .permission
  | .file c r => if r then .ok c else .error .permission

/-- The function `ioutil.WriteFile`: open with create-and-truncate, write, close.
When the open fails nothing changes. Once the file is open it has been
truncated; the bytes within the size limit are written and a short write is an
error. A created file is readable (mode 0644), an existing one keeps its mode. -/
def WriteFile (fs : FileSys) (p : String) (data : Bytes) : FileSys × Option FileErr :=
  if fs.openable p then
    let r := match fs.node p with
      | .file _ r => r
      | _ => true
    let fs1 : FileSys :=
      { fs with node := fun q => if q = p then .file (data.take fs.limit) r else fs.node q }
    if data.length ≤ fs.limit then (fs1, none) else (fs1, some .device)
  else (fs, some .permission)

/-! ## `GatherURL` -/

/-- The part of the configuration `GatherURL` refers to directly. -/
structure HTTPTemplate where
  Src : String
  Dest : String

/-- The errors `GatherURL` returns, one constructor per `return false, ...`. -/
inductive GatherError
  | response (msg : String)
  | json (msg : String)
  | generating (msg : String)
  | readingFile (e : FileErr)
  | writingFile (e : FileErr)
  | readingStatus (e : FileErr)
deriving DecidableEq, Repr

/-- The result of `GatherURL`: the file system afterwards, the `changed` flag
and the error (`none` is `nil`). -/
structure Outcome where
  fs : FileSys
  changed : Bool
  err : Option GatherError

/-- Lines 181-201 of `processor.go`: the commit of the rendered content `cont`
to `dest`. -/
def commit (fs : FileSys) (dest : String) (cont : Bytes) : Outcome :=
  match osStat fs dest with
  | .ok _ =>
    match ReadFile fs dest with
    | .error e => ⟨fs, false, some (.readingFile e)⟩
    | .ok conf =>
      if getHash conf ≠ getHash cont then
        match WriteFile fs dest cont with
        | (fs1, some e) => ⟨fs1, false, some (.writingFile e)⟩
        | (fs1, none) => ⟨fs1, true, none⟩
      else ⟨fs, false, none⟩
  | .error e =>
    if osIsNotExist e then
      match WriteFile fs dest cont with
      | (fs1, some e) => ⟨fs1, false, some (.writingFile e)⟩
      | (fs1, none) => ⟨fs1, true, none⟩
    else ⟨fs, false, some (.readingStatus e)⟩

/-- The method `GatherURL`. The collaborators `GetResponse`, `json.Unmarshal`
and `getGonfig` are given by their results. -/
def GatherURL {J : Type} (h : HTTPTemplate) (GetResponse : Except String Bytes)
    (Unmarshal : Bytes → Except String J) (getGonfig : J → Except String Bytes)
    (fs : FileSys) : Outcome :=
  match GetResponse with
  | .error e => ⟨fs, false, some (.response e)⟩
  | .ok body =>
    match Unmarshal body with
    | .error e => ⟨fs, false, some (.json e)⟩
    | .ok jsn =>
      match getGonfig jsn with
      | .error e => ⟨fs, false, some (.generating e)⟩
      | .ok cont => commit fs h.Dest cont

/-! ## Machine integers and `float64` -/

/-- Two's-complement wrap-around of an integer into 64 signed bits. -/
def wrap64 (n : Int) : Int :=
  (n + 9223372036854775808) % 18446744073709551616 - 9223372036854775808

/-- Whether an integer is a value of `int64` (and of `int` on a 64-bit target). -/
def isInt64 (n : Int) : Prop :=
  -9223372036854775808 ≤ n ∧ n ≤ 9223372036854775807

instance (n : Int) : Decidable (isInt64 n) := by
  unfold isInt64
  exact inferInstance

/-- An IEEE-754 binary64 datum. A finite datum `fin neg m e` has the value
`(-1)^neg * m * 2^e`, with `m < 2^53`, `-1074 ≤ e ≤ 971`, and `2^52 ≤ m` unless
`e = -1074`. -/
inductive F64
  | nan
  | inf (neg : Bool)
  | fin (neg : Bool) (m : Nat) (e : Int)
deriving DecidableEq, Repr

namespace F64

/-- The number of binary digits of `n`, computed with `fuel` halvings. -/
def bitLenAux : Nat → Nat → Nat
  | 0, _ => 0
  | fuel + 1, n => if n = 0 then 0 else bitLenAux fuel (n / 2) + 1

/-- The number of binary digits of `n` (`0` for `0`). -/
def bitLen (n : Nat) : Nat := bitLenAux n n

/-- The quotient `m / 2^k` rounded to nearest, ties to even. -/
def roundNE (m k : Nat) : Nat :=
  let q := m / 2 ^ k
  let r := m % 2 ^ k
  if 2 * r < 2 ^ k then q
  else if 2 ^ k < 2 * r then q + 1
  else if q % 2 = 0 then q else q + 1

/-- The binary64 datum nearest to `(-1)^neg * m * 2^e` (ties to even,
overflow to infinity). -/
def ofScaled (neg : Bool) (m : Nat) (e : Int) : F64 :=
  if m = 0 then .fin neg 0 (-1074)
  else
    let t : Int := max (e + (bitLen m : Int) - 53) (-1074)
    let q : Nat := if t ≤ e then m * 2 ^ (e - t).toNat else roundNE m (t - e).toNat
    let q1 : Nat := if q = 9007199254740992 then 4503599627370496 else q
    let t1 : Int := if q = 9007199254740992 then t + 1 else t
    if 971 < t1 then .inf neg else .fin neg q1 t1

/-- The conversion `float64(n)` of an integer. -/
def ofInt (n : Int) : F64 := ofScaled (decide (n < 0)) n.natAbs 0

/-- A finite significand with its sign. -/
def signed (neg : Bool) (m : Nat) : Int := if neg then -(m : Int) else (m : Int)

/-- The sum `x + y` of two `float64` values. -/
def add : F64 → F64 → F64
  | .nan, _ => .nan
  | _, .nan => .nan
  | .inf a, .inf b => if a = b then .inf a else .nan
  | .inf a, .fin _ _ _ => .inf a
  | .fin _ _ _, .inf b => .inf b
  | .fin s1 m1 e1, .fin s2 m2 e2 =>
    let e := min e1 e2
    let x : Int := signed s1 m1 * 2 ^ (e1 - e).toNat + signed s2 m2 * 2 ^ (e2 - e).toNat
    if x = 0 then .fin (s1 && s2) 0 (-1074) else ofScaled (decide (x < 0)) x.natAbs e

/-- The integer part of a finite datum, rounded toward zero; `none` for NaN and
the infinities. -/
def trunc : F64 → Option Int
  | .fin neg m e =>
    some (signed neg (if 0 ≤ e then m * 2 ^ e.toNat else m / 2 ^ (-e).toNat))
  | _ => none

/-- The exact rational value of a finite datum. -/
def toRat : F64 → Option ℚ
  | .fin neg m e => some ((signed neg m : ℚ) * (2 : ℚ) ^ e)
  | _ => none

/-- The conversion `int64(f)`: the integer part when it is an `int64`. Otherwise
the Go specification leaves the result to the implementation: it is the
`int64` that `impl` selects. -/
def toInt64 (impl : F64 → Int) (f : F64) : Int :=
  match f.trunc with
  | some t => if isInt64 t then t else wrap64 (impl f)
  | none => wrap64 (impl f)

end F64

/-! ## Dynamic values (`interface{}`) and the heap -/

/-- A slice header: backing array, offset of the first element in it, length
and capacity. A nil slice has length and capacity zero. -/
structure SliceHdr where
  arr : Nat
  off : Nat
  len : Nat
  cap : Nat
deriving DecidableEq, Repr

/-- The values a template can pass to a function of `funcs.go`, tagged by
their `reflect.Kind`. Integers carry their mathematical value, strings their
bytes, slices their header, maps the address of their table (`none` is the nil
map); `other` is a value of any further kind, with its type name. -/
inductive Value
  | nil
  | bool (b : Bool)
  | int (n : Int)
  | int8 (n : Int)
  | int16 (n : Int)
  | int32 (n : Int)
  | int64 (n : Int)
  | uint (n : Nat)
  | float32 (f : F64)
  | float64 (f : F64)
  | string (s : Bytes)
  | slice (s : SliceHdr)
  | map (r : Option Nat)
  | other (typeName : String)
deriving DecidableEq, Repr

/-- The kinds of `reflect` that occur. -/
inductive Kind
  | Invalid | Bool | Int | Int8 | Int16 | Int32 | Int64 | Uint
  | Float32 | Float64 | String | Slice | Map | Struct
deriving DecidableEq, Repr

/-- The kind `reflect.ValueOf(v).Kind()`. -/
def Value.Kind : Value → Kind
  | .nil => .Invalid
  | .bool _ => .Bool
  | .int _ => .Int
  | .int8 _ => .Int8
  | .int16 _ => .Int16
  | .int32 _ => .Int32
  | .int64 _ => .Int64
  | .uint _ => .Uint
  | .float32 _ => .Float32
  | .float64 _ => .Float64
  | .string _ => .String
  | .slice _ => .Slice
  | .map _ => .Map
  | .other _ => .Struct

/-- The type name printed by the verb `%T`. -/
def Value.typeName : Value → String
  | .nil => "<nil>"
  | .bool _ => "bool"
  | .int _ => "int"
  | .int8 _ => "int8"
  | .int16 _ => "int16"
  | .int32 _ => "int32"
  | .int64 _ => "int64"
  | .uint _ => "uint"
  | .float32 _ => "float32"
  | .float64 _ => "float64"
  | .string _ => "string"
  | .slice _ => "[]interface \x7b\x7d"
  | .map _ => "map[string]interface \x7b\x7d"
  | .other n => n

/-- The error `fmt.Errorf("unknown type - %T", v)`. -/
def unknownType (v : Value) : String := "unknown type - " ++ v.typeName

/-- The classification of `toInt` and `toFloat`: a signed integer of any width. -/
def Value.isIntKind (v : Value) : Bool :=
  match v.Kind with
  | .Int | .Int8 | .Int16 | .Int32 | .Int64 => true
  | _ => false

/-- The classification of `toInt` and `toFloat`: a 32- or 64-bit float. -/
def Value.isFloatKind (v : Value) : Bool :=
  match v.Kind with
  | .Float32 | .Float64 => true
  | _ => false

/-! ## `funcs.go`: numeric helpers -/

/-- The function `toInt`. -/
def toInt (impl : F64 → Int) (i : Value) : Except String Int :=
  match i with
  | .int n | .int8 n | .int16 n | .int32 n | .int64 n => .ok n
  | .float32 f | .float64 f => .ok (F64.toInt64 impl f)
  | _ => .error (unknownType i)

/-- The function `toFloat`. -/
def toFloat (i : Value) : Except String F64 :=
  match i with
  | .int n | .int8 n | .int16 n | .int32 n | .int64 n => .ok (F64.ofInt n)
  | .float32 f | .float64 f => .ok f
  | _ => .error (unknownType i)

/-- The function `addFunc`, registered as `add`. -/
def addFunc (b a : Value) : Except String F64 :=
  match a with
  | .int x =>
    match b with
    | .int y => .ok (F64.ofInt (wrap64 (x + y)))
    | .float64 g => .ok (F64.add (F64.ofInt x) g)
    | _ => .error (unknownType b)
  | .float64 f =>
    match b with
    | .int y => .ok (F64.add f (F64.ofInt y))
    | .float64 g => .ok (F64.add f g)
    | _ => .error (unknownType b)
  | _ => .error (unknownType a)

/-- Run-time panics of the Go runtime that the helpers can raise. -/
inductive Panic
  | divideByZero
  | nilMapAssignment
  | sliceBounds
deriving DecidableEq, Repr

/-- The closure registered as `sub`, on the 64-bit `int`. -/
def sub (a b : Int) : Except Panic Int := .ok (wrap64 (a - b))

/-- The closure registered as `div`: division truncates toward zero and a zero
divisor raises the run-time panic "integer divide by zero". -/
def div (a b : Int) : Except Panic Int :=
  if b = 0 then .error .divideByZero else .ok (wrap64 (Int.tdiv a b))

/-- The closure registered as `mod`. -/
def mod (a b : Int) : Except Panic Int :=
  if b = 0 then .error .divideByZero else .ok (wrap64 (Int.tmod a b))

/-- The closure registered as `mul`. -/
def mul (a b : Int) : Except Panic Int := .ok (wrap64 (a * b))

/-- The integer entries of the `funcMap` of `getGonfig`, by name. -/
def funcMapInt (name : String) : Option (Int → Int → Except Panic Int) :=
  if name = "sub" then some sub
  else if name = "div" then some div
  else if name = "mod" then some mod
  else if name = "mul" then some mul
  else none

/-! ## `funcs.go`: `strQuote` and `strconv.Quote` -/

/-- The byte of the lower-case hex digit `n` (the table `lowerhex`). -/
def lowerhex (n : Nat) : Nat :=
  if n % 16 < 10 then 48 + n % 16 else 87 + n % 16

/-- Whether `lo ≤ b ≤ hi`. -/
def inRange (lo hi b : Nat) : Bool := decide (lo ≤ b) && decide (b ≤ hi)

/-- The function `utf8.DecodeRuneInString`: the first rune of `s` and its width
in bytes; an invalid encoding is `(0xFFFD, 1)`. -/
def decodeRune (s : Bytes) : Nat × Nat :=
  match s with
  | [] => (65533, 0)
  | b0 :: rest =>
    if b0 < 128 then (b0, 1)
    else if inRange 194 223 b0 then
      match rest with
      | b1 :: _ =>
        if inRange 128 191 b1 then ((b0 % 32) * 64 + b1 % 64, 2) else (65533, 1)
      | _ => (65533, 1)
    else if inRange 224 239 b0 then
      let lo := if b0 = 224 then 160 else 128
      let hi := if b0 = 237 then 159 else 191
      match rest with
      | b1 :: b2 :: _ =>
        if inRange lo hi b1 && inRange 128 191 b2 then
          ((b0 % 16) * 4096 + (b1 % 64) * 64 + b2 % 64, 3)
        else (65533, 1)
      | _ => (65533, 1)
    else if inRange 240 244 b0 then
      let lo := if b0 = 240 then 144 else 128
      let hi := if b0 = 244 then 143 else 191
      match rest with
      | b1 :: b2 :: b3 :: _ =>
        if inRange lo hi b1 && inRange 128 191 b2 && inRange 128 191 b3 then
          ((b0 % 8) * 262144 + (b1 % 64) * 4096 + (b2 % 64) * 64 + b3 % 64, 4)
        else (65533, 1)
      | _ => (65533, 1)
    else (65533, 1)

/-- The function `utf8.ValidRune`. -/
def validRune (r : Nat) : Bool :=
  decide (r < 55296) || (decide (57343 < r) && decide (r ≤ 1114111))

/-- The function `utf8.AppendRune` on an empty buffer. -/
def encodeRune (r : Nat) : Bytes :=
  if r ≤ 127 then [r]
  else if r ≤ 2047 then [192 + r / 64, 128 + r % 64]
  else if !validRune r then [239, 191, 189]
  else if r ≤ 65535 then [224 + r / 4096, 128 + (r / 64) % 64, 128 + r % 64]
  else [240 + r / 262144, 128 + (r / 4096) % 64, 128 + (r / 64) % 64, 128 + r % 64]

/-- The function `strconv.IsPrint`. Runes up to `0xFF` are decided by the code;
beyond that the Unicode tables of `strconv` decide, given as `table`. -/
def IsPrint (table : Nat → Bool) (r : Nat) : Bool :=
  if r ≤ 255 then
    if 32 ≤ r ∧ r ≤ 126 then true
    else if 161 ≤ r ∧ r ≤ 255 then decide (r ≠ 173)
    else false
  else table r

/-- The hex digits of `r` from bit `4 * n` downwards. -/
def hexDigits (r : Nat) : Nat → Bytes
  | 0 => []
  | n + 1 => lowerhex (r / 16 ^ n) :: hexDigits r n

/-- The function `appendEscapedRune` of `strconv` for the quote `"`, neither
ASCII-only nor graphic-only, on an empty buffer. -/
def appendEscapedRune (table : Nat → Bool) (r : Nat) : Bytes :=
  if r = 34 ∨ r = 92 then [92, r]
  else if IsPrint table r then encodeRune r
  else if r = 7 then [92, 97]
  else if r = 8 then [92, 98]
  else if r = 12 then [92, 102]
  else if r = 10 then [92, 110]
  else if r = 13 then [92, 114]
  else if r = 9 then [92, 116]
  else if r = 11 then [92, 118]
  else if r < 32 ∨ r = 127 then [92, 120, lowerhex (r / 16), lowerhex r]
  else if !validRune r then 92 :: 117 :: hexDigits 65533 4
  else if r < 65536 then 92 :: 117 :: hexDigits r 4
  else 92 :: 85 :: hexDigits r 8

/-- The loop of `appendQuotedWith`: the escaped body of `s`. Every iteration
consumes at least one byte, so `fuel = len(s)` iterations suffice. -/
def quoteLoop (table : Nat → Bool) : Nat → Bytes → Bytes
  | 0, _ => []
  | _ + 1, [] => []
  | fuel + 1, b0 :: rest =>
    let d := if b0 < 128 then (b0, 1) else decodeRune (b0 :: rest)
    if d.2 = 1 ∧ d.1 = 65533 then
      92 :: 120 :: lowerhex (b0 / 16) :: lowerhex b0 :: quoteLoop table fuel rest
    else
      appendEscapedRune table d.1 ++ quoteLoop table fuel ((b0 :: rest).drop d.2)

/-- The function `strconv.Quote`. -/
def Quote (table : Nat → Bool) (s : Bytes) : Bytes :=
  34 :: quoteLoop table s.length s ++ [34]

/-- The slice expression `s[lo:hi]` on a string, with its bounds check. -/
def sliceStr (s : Bytes) (lo hi : Int) : Except Panic Bytes :=
  if 0 ≤ lo ∧ lo ≤ hi ∧ hi ≤ s.length then .ok ((s.take hi.toNat).drop lo.toNat)
  else .error .sliceBounds

/-- The function `strQuote`. -/
def strQuote (table : Nat → Bool) (data : Bytes) : Except Panic Bytes :=
  let s := Quote table data
  sliceStr s 1 ((s.length : Int) - 1)

/-! ## `funcs.go`: container builders -/

/-- The heap: the cells of the backing arrays (array address, then index), the
tables of the maps, and the next free address of each. -/
structure Heap where
  cells : Nat → Nat → Value
  nextArr : Nat
  tables : Nat → List (Bytes × Value)
  nextMap : Nat

/-- The elements a slice header denotes in a heap. -/
def Heap.elems (hp : Heap) (s : SliceHdr) : List Value :=
  (List.range s.len).map fun i => hp.cells s.arr (s.off + i)

/-- A slice header that the heap can hold: the length is within the capacity
and a backing array in use has been allocated. -/
def Heap.validSlice (hp : Heap) (s : SliceHdr) : Prop :=
  s.len ≤ s.cap ∧ (s.cap = 0 ∨ s.arr < hp.nextArr)

/-- The value stored under a key of a table, the lookup `m[k]`. -/
def tableGet (m : List (Bytes × Value)) (k : Bytes) : Option Value :=
  match m with
  | [] => none
  | (k1, v1) :: rest => if k1 = k then some v1 else tableGet rest k

/-- The assignment `m[k] = v` on a table. -/
def tableSet (m : List (Bytes × Value)) (k : Bytes) (v : Value) : List (Bytes × Value) :=
  match m with
  | [] => [(k, v)]
  | (k1, v1) :: rest => if k1 = k then (k, v) :: rest else (k1, v1) :: tableSet rest k v

/-- The function `createMap`: a fresh empty table. -/
def createMap (hp : Heap) : Heap × Option Nat :=
  ({ hp with
      tables := fun a => if a = hp.nextMap then [] else hp.tables a
      nextMap := hp.nextMap + 1 },
   some hp.nextMap)

/-- The function `pushToMap`: `mp[k] = vl; return mp`. Assignment to an entry
of a nil map is a run-time panic. -/
def pushToMap (hp : Heap) (mp : Option Nat) (k : Bytes) (vl : Value) :
    Except Panic (Heap × Option Nat) :=
  match mp with
  | none => .error .nilMapAssignment
  | some r =>
    .ok ({ hp with tables := fun a => if a = r then tableSet (hp.tables r) k vl else hp.tables a },
         some r)

/-- The function `createArray`: an empty slice, without backing array. -/
def createArray (hp : Heap) : Heap × SliceHdr :=
  (hp, ⟨0, 0, 0, 0⟩)

/-- The function `pushToArray`: `append(arr, vl)`. With spare capacity the
element is stored in place, behind the last element; otherwise the elements
are copied to a new backing array, whose spare capacity `grow` is chosen by
the runtime. -/
def pushToArray (grow : Nat → Nat) (hp : Heap) (arr : SliceHdr) (vl : Value) :
    Heap × SliceHdr :=
  if arr.len < arr.cap then
    ({ hp with
        cells := fun a i =>
          if a = arr.arr ∧ i = arr.off + arr.len then vl else hp.cells a i },
     { arr with len := arr.len + 1 })
  else
    ({ hp with
        cells := fun a i =>
          if a = hp.nextArr then
            if i < arr.len then hp.cells arr.arr (arr.off + i)
            else if i = arr.len then vl else .nil
          else hp.cells a i
        nextArr := hp.nextArr + 1 },
     ⟨hp.nextArr, 0, arr.len + 1, arr.len + 1 + grow arr.len⟩)

/-! ## Composite template expressions and the reference truncation -/

/-- The template expression `toInt (toFloat x)`. -/
def toIntToFloat (impl : F64 → Int) (x : Value) : Except String Int :=
  match toFloat x with
  | .ok f => toInt impl (.float64 f)
  | .error e => .error e

/-- The template expression `pushToMap (pushToMap m k v) k v`. -/
def pushToMapTwice (hp : Heap) (mp : Option Nat) (k : Bytes) (vl : Value) :
    Except Panic (Heap × Option Nat) :=
  match pushToMap hp mp k vl with
  | .ok (hp1, m1) => pushToMap hp1 m1 k vl
  | .error e => .error e

/-- Truncation of a rational toward zero, the reference for `int64(f)`. -/
def truncQ (q : ℚ) : Int := if 0 ≤ q then ⌊q⌋ else ⌈q⌉

/-! ## Concrete inputs -/

/-- A file system in which every path is missing, every path may be created and
a file may reach a hundred bytes. -/
def emptyFS : FileSys := ⟨fun _ => .absent, fun _ => true, 100⟩

/-- A file system whose only file is `conf`, readable and writable, holding
`old`, where a file may reach `limit` bytes. -/
def oneFileFS (old : Bytes) (limit : Nat) : FileSys :=
  ⟨fun p => if p = "conf" then .file old true else .absent, fun _ => true, limit⟩

/-- A heap on which nothing has been allocated. -/
def emptyHeap : Heap := ⟨fun _ _ => .nil, 0, fun _ => [], 0⟩

/-- A heap with one backing array of two cells, the first holding `7`. -/
def spareHeap : Heap :=
  ⟨fun a i => if a = 0 ∧ i = 0 then .int 7 else .nil, 1, fun _ => [], 0⟩

end Template

/-! # Theorems -/

set_option maxRecDepth 100000

namespace Template

/-! ## Change detection and commit -/

/-- With a response, a decoded document and a rendered text, `GatherURL` is the
commit of the rendered text. -/
theorem GatherURL_eq_commit {J : Type} (h : HTTPTemplate) (body : Bytes) (jsn : J)
    (Unmarshal : Bytes → Except String J) (getGonfig : J → Except String Bytes)
    (fs : FileSys) (cont : Bytes)
    (hjson : Unmarshal body = .ok jsn) (hrender : getGonfig jsn = .ok cont) :
    GatherURL h (.ok body) Unmarshal getGonfig fs = commit fs h.Dest cont := by
  simp [GatherURL, hjson, hrender]

/-- A write that is permitted and fits stores exactly the data. -/
theorem WriteFile_ok (fs : FileSys) (p : String) (data : Bytes)
    (hopen : fs.openable p = true) (hlimit : data.length ≤ fs.limit) :
    (WriteFile fs p data).2 = none ∧
    (WriteFile fs p data).1.openable = fs.openable ∧
    (WriteFile fs p data).1.limit = fs.limit ∧
    (WriteFile fs p data).1.node p
      = .file data (match fs.node p with
          | .file _ r => r
          | _ => true) := by
  simp [WriteFile, hopen, hlimit, List.take_of_length_le]

/-- Commit to a missing destination, when the write succeeds. -/
theorem commit_absent (fs : FileSys) (dest : String) (cont : Bytes)
    (hnode : fs.node dest = .absent)
    (hopen : fs.openable dest = true) (hlimit : cont.length ≤ fs.limit) :
    (commit fs dest cont).changed = true ∧ (commit fs dest cont).err = none ∧
    (commit fs dest cont).fs.node dest = .file cont true ∧
    (commit fs dest cont).fs.openable = fs.openable ∧
    (commit fs dest cont).fs.limit = fs.limit := by
  simp [commit, osStat, osIsNotExist, hnode, WriteFile, hopen, hlimit, List.take_of_length_le]

/-- Commit over a readable destination with another fingerprint, when the write
succeeds. -/
theorem commit_differs (fs : FileSys) (dest : String) (cont old : Bytes)
    (hnode : fs.node dest = .file old true) (hne : getHash old ≠ getHash cont)
    (hopen : fs.openable dest = true) (hlimit : cont.length ≤ fs.limit) :
    (commit fs dest cont).changed = true ∧ (commit fs dest cont).err = none ∧
    (commit fs dest cont).fs.node dest = .file cont true ∧
    (commit fs dest cont).fs.openable = fs.openable ∧
    (commit fs dest cont).fs.limit = fs.limit := by
  simp [commit, osStat, ReadFile, hnode, hne, WriteFile, hopen, hlimit, List.take_of_length_le]

/-- Commit over a readable destination with the same fingerprint. -/
theorem commit_same (fs : FileSys) (dest : String) (cont old : Bytes)
    (hnode : fs.node dest = .file old true) (heq : getHash old = getHash cont) :
    (commit fs dest cont).changed = false ∧ (commit fs dest cont).err = none ∧
    (commit fs dest cont).fs = fs := by
  simp [commit, osStat, ReadFile, hnode, heq]

/-- C1: the commit decision of `GatherURL` for the rendered content
`newContent`. A missing destination is written and the result is `(true, nil)`
with the destination holding exactly `newContent`; an existing destination
whose fingerprint differs from that of `newContent` is overwritten and the
result is `(true, nil)`; with equal fingerprints the result is `(false, nil)`
and the file system is the one before the call. The file operations involved
are taken to succeed (the destination is readable, may be opened for writing
and the content fits). -/
theorem GatherURL_commit_decision {J : Type} (h : HTTPTemplate) (body : Bytes) (jsn : J)
    (Unmarshal : Bytes → Except String J) (getGonfig : J → Except String Bytes)
    (fs : FileSys) (newContent : Bytes)
    (hjson : Unmarshal body = .ok jsn) (hrender : getGonfig jsn = .ok newContent) :
    (fs.node h.Dest = .absent → fs.openable h.Dest = true → newContent.length ≤ fs.limit →
      (GatherURL h (.ok body) Unmarshal getGonfig fs).changed = true ∧
      (GatherURL h (.ok body) Unmarshal getGonfig fs).err = none ∧
      (GatherURL h (.ok body) Unmarshal getGonfig fs).fs.node h.Dest = .file newContent true) ∧
    (∀ old, fs.node h.Dest = .file old true → getHash old ≠ getHash newContent →
      fs.openable h.Dest = true → newContent.length ≤ fs.limit →
      (GatherURL h (.ok body) Unmarshal getGonfig fs).changed = true ∧
      (GatherURL h (.ok body) Unmarshal getGonfig fs).err = none ∧
      (GatherURL h (.ok body) Unmarshal getGonfig fs).fs.node h.Dest = .file newContent true) ∧
    (∀ old, fs.node h.Dest = .file old true → getHash old = getHash newContent →
      (GatherURL h (.ok body) Unmarshal getGonfig fs).changed = false ∧
      (GatherURL h (.ok body) Unmarshal getGonfig fs).err = none ∧
      (GatherURL h (.ok body) Unmarshal getGonfig fs).fs = fs) := by
  rw [GatherURL_eq_commit h body jsn Unmarshal getGonfig fs newContent hjson hrender]
  refine ⟨fun hn ho hr => ?_, fun old hn hne ho hr => ?_, fun old hn heq => ?_⟩
  · have := commit_absent fs h.Dest newContent hn ho hr
    exact ⟨this.1, this.2.1, this.2.2.1⟩
  · have := commit_differs fs h.Dest newContent old hn hne ho hr
    exact ⟨this.1, this.2.1, this.2.2.1⟩
  · exact commit_same fs h.Dest newContent old hn heq

/-- The fingerprints of `old` and `new` differ. -/
theorem getHash_old_ne_new : getHash (bytesOf "old") ≠ getHash (bytesOf "new") := by decide

/-- C1 at the destination `conf`: missing with the new content `hello`, the
result is `(true, nil)` and the destination holds exactly `hello`; holding
`old` with the new content `new`, the result is `(true, nil)` and the
destination holds `new`; holding `new` with the new content `new`, the result
is `(false, nil)` and nothing changes. -/
theorem GatherURL_commit_decision_witness :
    ((GatherURL ⟨"tmpl", "conf"⟩ (.ok []) (fun _ => Except.ok ()) (fun _ => .ok (bytesOf "hello"))
        emptyFS).changed = true ∧
     (GatherURL ⟨"tmpl", "conf"⟩ (.ok []) (fun _ => Except.ok ()) (fun _ => .ok (bytesOf "hello"))
        emptyFS).err = none ∧
     (GatherURL ⟨"tmpl", "conf"⟩ (.ok []) (fun _ => Except.ok ()) (fun _ => .ok (bytesOf "hello"))
        emptyFS).fs.node "conf" = .file (bytesOf "hello") true) ∧
    ((GatherURL ⟨"tmpl", "conf"⟩ (.ok []) (fun _ => Except.ok ()) (fun _ => .ok (bytesOf "new"))
        (oneFileFS (bytesOf "old") 100)).changed = true ∧
     (GatherURL ⟨"tmpl", "conf"⟩ (.ok []) (fun _ => Except.ok ()) (fun _ => .ok (bytesOf "new"))
        (oneFileFS (bytesOf "old") 100)).err = none ∧
     (GatherURL ⟨"tmpl", "conf"⟩ (.ok []) (fun _ => Except.ok ()) (fun _ => .ok (bytesOf "new"))
        (oneFileFS (bytesOf "old") 100)).fs.node "conf" = .file (bytesOf "new") true) ∧
    ((GatherURL ⟨"tmpl", "conf"⟩ (.ok []) (fun _ => Except.ok ()) (fun _ => .ok (bytesOf "new"))
        (oneFileFS (bytesOf "new") 100)).changed = false ∧
     (GatherURL ⟨"tmpl", "conf"⟩ (.ok []) (fun _ => Except.ok ()) (fun _ => .ok (bytesOf "new"))
        (oneFileFS (bytesOf "new") 100)).err = none ∧
     (GatherURL ⟨"tmpl", "conf"⟩ (.ok []) (fun _ => Except.ok ()) (fun _ => .ok (bytesOf "new"))
        (oneFileFS (bytesOf "new") 100)).fs = oneFileFS (bytesOf "new") 100) :=
  ⟨(GatherURL_commit_decision ⟨"tmpl", "conf"⟩ [] () (fun _ => Except.ok ())
      (fun _ => .ok (bytesOf "hello")) emptyFS (bytesOf "hello") rfl rfl).1 rfl rfl (by decide),
   (GatherURL_commit_decision ⟨"tmpl", "conf"⟩ [] () (fun _ => Except.ok ())
      (fun _ => .ok (bytesOf "new")) (oneFileFS (bytesOf "old") 100) (bytesOf "new") rfl rfl).2.1
      (bytesOf "old") rfl getHash_old_ne_new rfl (by decide),
   (GatherURL_commit_decision ⟨"tmpl", "conf"⟩ [] () (fun _ => Except.ok ())
      (fun _ => .ok (bytesOf "new")) (oneFileFS (bytesOf "new") 100) (bytesOf "new") rfl rfl).2.2
      (bytesOf "new") rfl rfl⟩

/-- The fingerprints of `A` and `B` differ. -/
theorem getHash_A_ne_B : getHash (bytesOf "A") ≠ getHash (bytesOf "B") := by decide

/-- C2: starting from a missing destination that may be written, committing
`A`, then `B`, then `B` again reports `true, true, false` without error; and
for every content `c` that fits, committing `c` twice reports `true` then
`false`, without error, and the destination then holds `c`. -/
theorem commit_sequence (fs : FileSys) (dest : String)
    (habsent : fs.node dest = .absent) (hopen : fs.openable dest = true) :
    (1 ≤ fs.limit →
      (commit fs dest (bytesOf "A")).changed = true ∧
      (commit (commit fs dest (bytesOf "A")).fs dest (bytesOf "B")).changed = true ∧
      (commit (commit (commit fs dest (bytesOf "A")).fs dest (bytesOf "B")).fs dest
        (bytesOf "B")).changed = false ∧
      (commit fs dest (bytesOf "A")).err = none ∧
      (commit (commit fs dest (bytesOf "A")).fs dest (bytesOf "B")).err = none ∧
      (commit (commit (commit fs dest (bytesOf "A")).fs dest (bytesOf "B")).fs dest
        (bytesOf "B")).err = none) ∧
    (∀ c : Bytes, c.length ≤ fs.limit →
      (commit fs dest c).changed = true ∧ (commit fs dest c).err = none ∧
      (commit (commit fs dest c).fs dest c).changed = false ∧
      (commit (commit fs dest c).fs dest c).err = none ∧
      (commit (commit fs dest c).fs dest c).fs.node dest = .file c true) := by
  constructor
  · intro hlimit
    have hA : (bytesOf "A").length ≤ fs.limit := hlimit
    have hB : (bytesOf "B").length ≤ fs.limit := hlimit
    obtain ⟨a1, a2, a3, a4, a5⟩ := commit_absent fs dest (bytesOf "A") habsent hopen hA
    obtain ⟨b1, b2, b3, b4, b5⟩ := commit_differs (commit fs dest (bytesOf "A")).fs dest
      (bytesOf "B") (bytesOf "A") a3 getHash_A_ne_B (by rw [a4]; exact hopen) (by rw [a5]; exact hB)
    obtain ⟨c1, c2, _⟩ := commit_same
      (commit (commit fs dest (bytesOf "A")).fs dest (bytesOf "B")).fs dest
      (bytesOf "B") (bytesOf "B") b3 rfl
    exact ⟨a1, b1, c1, a2, b2, c2⟩
  · intro c hc
    obtain ⟨a1, a2, a3, _, _⟩ := commit_absent fs dest c habsent hopen hc
    obtain ⟨c1, c2, c3⟩ := commit_same (commit fs dest c).fs dest c c a3 rfl
    refine ⟨a1, a2, c1, c2, ?_⟩
    rw [c3]
    exact a3

/-- C2 on the empty file system and the destination `conf`: the three commits
of `A`, `B`, `B` report `true, true, false`. -/
theorem commit_sequence_witness :
    (commit emptyFS "conf" (bytesOf "A")).changed = true ∧
    (commit (commit emptyFS "conf" (bytesOf "A")).fs "conf" (bytesOf "B")).changed = true ∧
    (commit (commit (commit emptyFS "conf" (bytesOf "A")).fs "conf" (bytesOf "B")).fs "conf"
      (bytesOf "B")).changed = false :=
  have h := (commit_sequence emptyFS "conf" rfl rfl).1 (by decide)
  ⟨h.1, h.2.1, h.2.2.1⟩

/-- C6: `div` and `mod` by zero fail with the divide-by-zero panic for every
dividend, and every other call of `sub`, `div`, `mod`, `mul` returns a result:
a call of one of the four registered helpers fails exactly when it is `div` or
`mod` with divisor `0`. -/
theorem int_helpers_fail_only_on_zero_divisor (a b : Int) :
    div a 0 = .error .divideByZero ∧ mod a 0 = .error .divideByZero ∧
    sub a b = .ok (wrap64 (a - b)) ∧ mul a b = .ok (wrap64 (a * b)) ∧
    (b ≠ 0 → div a b = .ok (wrap64 (Int.tdiv a b)) ∧ mod a b = .ok (wrap64 (Int.tmod a b))) ∧
    (∀ name f, funcMapInt name = some f →
      ((∃ e, f a b = .error e) ↔ (name = "div" ∨ name = "mod") ∧ b = 0)) := by
  refine ⟨by simp [div], by simp [mod], rfl, rfl, fun hb => by simp [div, mod, hb], ?_⟩
  intro name f hf
  unfold funcMapInt at hf
  split at hf
  · cases hf; subst name; simp [sub]
  · split at hf
    · cases hf; subst name
      by_cases hb : b = 0 <;> simp [div, hb]
    · split at hf
      · cases hf; subst name
        by_cases hb : b = 0 <;> simp [mod, hb]
      · split at hf
        · cases hf; subst name; simp [mul]
        · cases hf

/-- C6 at `div(5, 0)`, `div(-7, 2)` and `mod(-7, 2)`. -/
theorem int_helpers_fail_only_on_zero_divisor_witness :
    div 5 0 = .error .divideByZero ∧ div (-7) 2 = .ok (-3) ∧ mod (-7) 2 = .ok (-1) :=
  ⟨(int_helpers_fail_only_on_zero_divisor 5 0).1,
   ((int_helpers_fail_only_on_zero_divisor (-7) 2).2.2.2.2.1 (by decide)).1.trans rfl,
   ((int_helpers_fail_only_on_zero_divisor (-7) 2).2.2.2.2.1 (by decide)).2.trans rfl⟩

/-! ## `float64` conversions -/

namespace F64

theorem bitLenAux_lt (fuel : Nat) : ∀ n, n ≤ fuel → n < 2 ^ bitLenAux fuel n := by
  induction fuel with
  | zero => intro n hn; simp [bitLenAux]; omega
  | succ f ih =>
    intro n hn
    unfold bitLenAux
    by_cases h0 : n = 0
    · simp [h0]
    · simp only [h0, if_false]
      have h := ih (n / 2) (by omega)
      rw [pow_succ]
      omega

theorem bitLenAux_le (fuel : Nat) : ∀ n k, n < 2 ^ k → bitLenAux fuel n ≤ k := by
  induction fuel with
  | zero => intro n k _; simp [bitLenAux]
  | succ f ih =>
    intro n k hk
    unfold bitLenAux
    by_cases h0 : n = 0
    · simp [h0]
    · simp only [h0, if_false]
      cases k with
      | zero => simp at hk; omega
      | succ k =>
        have := ih (n / 2) k (by rw [pow_succ] at hk; omega)
        omega

theorem bitLen_lt (n : Nat) : n < 2 ^ bitLen n := bitLenAux_lt n n (le_refl n)

theorem bitLen_le (n k : Nat) (h : n < 2 ^ k) : bitLen n ≤ k := bitLenAux_le n n k h

theorem bitLen_pos (n : Nat) (h : n ≠ 0) : 1 ≤ bitLen n := by
  have := bitLen_lt n
  by_contra hc
  have h0 : bitLen n = 0 := by omega
  rw [h0] at this
  simp at this
  exact h this

/-- A non-zero natural below `2^53` is converted exactly: its digits are
shifted to the top of the significand. -/
theorem ofScaled_small (neg : Bool) (m : Nat) (h0 : m ≠ 0) (hlt : m < 2 ^ 53) :
    ofScaled neg m 0 = .fin neg (m * 2 ^ (53 - bitLen m)) ((bitLen m : Int) - 53) := by
  have hL1 := bitLen_pos m h0
  have hL2 := bitLen_le m 53 hlt
  have hL3 := bitLen_lt m
  have ht : max ((0 : Int) + (bitLen m : Int) - 53) (-1074) = (bitLen m : Int) - 53 := by
    rw [max_eq_left]
    · ring
    · omega
  have hexp : ((0 : Int) - ((bitLen m : Int) - 53)).toNat = 53 - bitLen m := by omega
  have hq : m * 2 ^ (53 - bitLen m) ≠ 9007199254740992 := by
    have h1 : m * 2 ^ (53 - bitLen m) < 2 ^ bitLen m * 2 ^ (53 - bitLen m) :=
      Nat.mul_lt_mul_of_pos_right hL3 (by positivity)
    rw [← pow_add] at h1
    have h2 : bitLen m + (53 - bitLen m) = 53 := by omega
    rw [h2] at h1
    have h3 : (2 : Nat) ^ 53 = 9007199254740992 := by norm_num
    omega
  unfold ofScaled
  simp only [h0, if_false, ht, hexp]
  have hle : (bitLen m : Int) - 53 ≤ 0 := by omega
  simp only [hle, if_true, hq, if_false]
  have h971 : ¬ ((971 : Int) < (bitLen m : Int) - 53) := by omega
  simp only [h971, if_false]

theorem trunc_shifted (neg : Bool) (m L : Nat) (hL : L ≤ 53) :
    trunc (.fin neg (m * 2 ^ (53 - L)) ((L : Int) - 53)) = some (signed neg m) := by
  unfold trunc
  by_cases h : (0 : Int) ≤ (L : Int) - 53
  · have hL53 : L = 53 := by omega
    subst hL53
    simp
  · have hk : (-((L : Int) - 53)).toNat = 53 - L := by omega
    simp only [h, if_false, hk]
    rw [Nat.mul_div_cancel _ (by positivity)]

theorem toRat_shifted (neg : Bool) (m L : Nat) (hL : L ≤ 53) :
    toRat (.fin neg (m * 2 ^ (53 - L)) ((L : Int) - 53)) = some (signed neg m : ℚ) := by
  show some (((signed neg (m * 2 ^ (53 - L)) : Int) : ℚ) * (2 : ℚ) ^ ((L : Int) - 53)) = _
  congr 1
  have h1 : ((signed neg (m * 2 ^ (53 - L)) : Int) : ℚ) = (signed neg m : ℚ) * (2 : ℚ) ^ (53 - L) := by
    unfold signed
    split <;> push_cast <;> ring
  rw [h1]
  have h2 : ((L : Int) - 53) = -((53 - L : Nat) : Int) := by omega
  rw [h2, zpow_neg, zpow_natCast]
  field_simp

theorem toRat_zero (neg : Bool) (e : Int) : toRat (.fin neg 0 e) = some 0 := by
  simp only [toRat, signed]
  split <;> simp

theorem trunc_zero (neg : Bool) (e : Int) : trunc (.fin neg 0 e) = some 0 := by
  simp only [trunc, signed]
  split <;> split <;> simp

theorem signed_natAbs (n : Int) : signed (decide (n < 0)) n.natAbs = n := by
  unfold signed
  by_cases h : n < 0
  · rw [if_pos (by simpa using h)]; omega
  · rw [if_neg (by simpa using h)]; omega

/-- An integer of magnitude at most `2^53` converts to `float64` exactly: its
integer part is the integer itself. -/
theorem trunc_ofInt (n : Int) (h : |n| ≤ 9007199254740992) : trunc (ofInt n) = some n := by
  by_cases h0 : n = 0
  · subst h0
    have h1 : ofInt 0 = .fin false 0 (-1074) := rfl
    rw [h1, trunc_zero]
  by_cases hmax : n.natAbs = 9007199254740992
  · have hn : n = 9007199254740992 ∨ n = -9007199254740992 := by omega
    rcases hn with rfl | rfl <;> rfl
  · have hlt : n.natAbs < 2 ^ 53 := by
      have h3 : (2 : Nat) ^ 53 = 9007199254740992 := by norm_num
      have : |n| = (n.natAbs : Int) := Int.abs_eq_natAbs n
      omega
    unfold ofInt
    rw [ofScaled_small _ _ (by omega) hlt, trunc_shifted _ _ _ (bitLen_le _ _ hlt),
      signed_natAbs]

/-- An integer of magnitude at most `2^53` converts to `float64` exactly: the
value of the result is the integer. -/
theorem toRat_ofInt (n : Int) (h : |n| ≤ 9007199254740992) : toRat (ofInt n) = some (n : ℚ) := by
  by_cases h0 : n = 0
  · subst h0
    have h1 : ofInt 0 = .fin false 0 (-1074) := rfl
    rw [h1, toRat_zero]
    simp
  by_cases hmax : n.natAbs = 9007199254740992
  · have hn : n = 9007199254740992 ∨ n = -9007199254740992 := by omega
    rcases hn with rfl | rfl
    · have : ofInt 9007199254740992 = .fin false 4503599627370496 1 := by decide
      rw [this]; simp [toRat, signed]; norm_num
    · have : ofInt (-9007199254740992) = .fin true 4503599627370496 1 := by decide
      rw [this]; simp [toRat, signed]; norm_num
  · have hlt : n.natAbs < 2 ^ 53 := by
      have h3 : (2 : Nat) ^ 53 = 9007199254740992 := by norm_num
      have : |n| = (n.natAbs : Int) := Int.abs_eq_natAbs n
      omega
    unfold ofInt
    rw [ofScaled_small _ _ (by omega) hlt, toRat_shifted _ _ _ (bitLen_le _ _ hlt),
      signed_natAbs]

theorem toInt64_ofInt (impl : F64 → Int) (n : Int) (h : |n| ≤ 9007199254740992) :
    toInt64 impl (ofInt n) = n := by
  unfold toInt64
  rw [trunc_ofInt n h]
  have : isInt64 n := by
    unfold isInt64
    have := abs_le.mp h
    omega
  simp [this]

end F64

namespace F64

theorem truncQ_neg (x : ℚ) : truncQ (-x) = -truncQ x := by
  unfold truncQ
  rcases lt_trichotomy x 0 with h | h | h
  · have h1 : (0 : ℚ) ≤ -x := by linarith
    have h2 : ¬ (0 : ℚ) ≤ x := by linarith
    rw [if_pos h1, if_neg h2, Int.floor_neg]
  · subst h; simp
  · have h1 : ¬ (0 : ℚ) ≤ -x := by linarith
    have h2 : (0 : ℚ) ≤ x := by linarith
    rw [if_neg h1, if_pos h2, Int.ceil_neg]

theorem floor_scaled (m : Nat) (e : Int) :
    ⌊(m : ℚ) * (2 : ℚ) ^ e⌋
      = ((if 0 ≤ e then m * 2 ^ e.toNat else m / 2 ^ (-e).toNat : Nat) : Int) := by
  by_cases h : 0 ≤ e
  · rw [if_pos h]
    obtain ⟨k, rfl⟩ := Int.eq_ofNat_of_zero_le h
    have : (m : ℚ) * (2 : ℚ) ^ (k : Int) = ((m * 2 ^ k : Nat) : ℚ) := by
      push_cast; rw [zpow_natCast]
    rw [this, Int.floor_natCast]
    simp
  · rw [if_neg h]
    have hk : e = -(((-e).toNat : Nat) : Int) := by omega
    have : (m : ℚ) * (2 : ℚ) ^ e = ((m : Int) : ℚ) / ((2 ^ (-e).toNat : Nat) : ℚ) := by
      conv_lhs => rw [hk]
      rw [zpow_neg, zpow_natCast]
      push_cast
      rw [div_eq_mul_inv]
    rw [this, Rat.floor_intCast_div_natCast]
    push_cast
    rfl

/-- The integer part computed on the representation is the truncation toward
zero of the exact value. -/
theorem trunc_eq_truncQ (f : F64) (q : ℚ) (h : toRat f = some q) :
    trunc f = some (truncQ q) := by
  cases f with
  | nan => simp [toRat] at h
  | inf neg => simp [toRat] at h
  | fin neg m e =>
    simp only [toRat, Option.some.injEq] at h
    subst h
    simp only [trunc, Option.some.injEq]
    have hpos : truncQ ((m : ℚ) * (2 : ℚ) ^ e)
        = ((if 0 ≤ e then m * 2 ^ e.toNat else m / 2 ^ (-e).toNat : Nat) : Int) := by
      unfold truncQ
      rw [if_pos (by positivity), floor_scaled]
    cases neg with
    | false => simp only [signed, Bool.false_eq_true, if_false, Int.cast_natCast]; rw [hpos]
    | true =>
      simp only [signed, if_true, Int.cast_neg, Int.cast_natCast, neg_mul]
      rw [truncQ_neg, hpos]

end F64

/-! ## Numeric helpers -/

theorem wrap64_of_isInt64 (n : Int) (h : isInt64 n) : wrap64 n = n := by
  unfold isInt64 at h
  unfold wrap64
  rw [Int.emod_eq_of_lt (by omega) (by omega)]
  omega

/-- C3 as stated fails at `add(1, 2^53)` on operands of kind `int`: the call
succeeds with the `float64` value `2^53`, which is not integer-kind and is not
the integer sum `2^53 + 1`. -/
theorem addFunc_sum_not_exact :
    addFunc (.int 1) (.int 9007199254740992) = .ok (.fin false 4503599627370496 1) ∧
    (Value.float64 (.fin false 4503599627370496 1)).isIntKind = false ∧
    F64.toRat (.fin false 4503599627370496 1) = some 9007199254740992 ∧
    ¬ ∃ r, addFunc (.int 1) (.int 9007199254740992) = .ok r ∧
      (Value.float64 r).isIntKind = true ∧ F64.toRat r = some (9007199254740992 + 1) := by
  have h1 : addFunc (.int 1) (.int 9007199254740992) = .ok (.fin false 4503599627370496 1) := by
    rfl
  refine ⟨h1, rfl, ?_, ?_⟩
  · simp [F64.toRat, F64.signed]; norm_num
  · rintro ⟨r, hr, hk, _⟩
    simp [Value.isIntKind, Value.Kind] at hk

/-- C3, amended: for operands `a` and `b` of kind `int`, `add(b, a)` succeeds;
the result is of kind `float64` and is the `float64` conversion of the 64-bit
sum, whose value is the integer `a + b` whenever `|a + b| ≤ 2^53`. -/
theorem addFunc_int (a b : Int) :
    addFunc (.int b) (.int a) = .ok (F64.ofInt (wrap64 (a + b))) ∧
    (Value.float64 (F64.ofInt (wrap64 (a + b)))).Kind = .Float64 ∧
    (|a + b| ≤ 9007199254740992 →
      F64.toRat (F64.ofInt (wrap64 (a + b))) = some ((a + b : Int) : ℚ)) := by
  refine ⟨rfl, rfl, fun h => ?_⟩
  have hr : isInt64 (a + b) := by
    unfold isInt64
    have := abs_le.mp h
    omega
  rw [wrap64_of_isInt64 _ hr]
  exact F64.toRat_ofInt _ h

/-- C3, amended, at `add(3, 4)`: the result has the value `7`. -/
theorem addFunc_int_witness :
    F64.toRat (F64.ofInt (wrap64 (4 + 3))) = some (((4 : Int) + 3 : Int) : ℚ) :=
  (addFunc_int 4 3).2.2 (by decide)

/-- C4 fails on the code at `add(int64(2), int64(1))`: both operands are
integer-kind for `toInt` and `toFloat`, which accept them, and `add` returns
the type error. -/
theorem addFunc_rejects_int64 :
    (Value.int64 1).isIntKind = true ∧ (Value.int64 2).isIntKind = true ∧
    toInt (fun _ => 0) (.int64 1) = .ok 1 ∧
    toFloat (.int64 2) = .ok (.fin false 4503599627370496 (-51)) ∧
    addFunc (.int64 2) (.int64 1) = .error "unknown type - int64" := by
  refine ⟨rfl, rfl, rfl, rfl, rfl⟩

/-- The failures of `add`: it returns an error exactly when some operand is not
of kind `int` or `float64`. -/
theorem addFunc_error_iff (b a : Value) :
    (∃ e, addFunc b a = .error e)
      ↔ ¬ ((a.Kind = .Int ∨ a.Kind = .Float64) ∧ (b.Kind = .Int ∨ b.Kind = .Float64)) := by
  cases a <;> cases b <;> simp [addFunc, Value.Kind]

theorem isInt64_wrap64 (n : Int) : isInt64 (wrap64 n) := by
  unfold isInt64 wrap64
  have h1 := Int.emod_nonneg (n + 9223372036854775808)
    (show (18446744073709551616 : Int) ≠ 0 by decide)
  have h2 := Int.emod_lt_of_pos (n + 9223372036854775808)
    (show (0 : Int) < 18446744073709551616 by decide)
  omega

/-- C5 as stated fails. At the integer `2^53 + 1`, `toFloat` rounds to `2^53`,
so `toInt(toFloat(x))` is `2^53`. At the float `2^63`, whose truncation is
`2^63`, the result is an `int64` and so differs from the truncation. Both hold
whatever the implementation does on unrepresentable values. -/
theorem roundtrip_not_identity :
    ((Value.int 9007199254740993).isIntKind = true ∧
      toInt (fun _ => 0) (.int 9007199254740993) = .ok 9007199254740993 ∧
      ∀ impl, toIntToFloat impl (.int 9007199254740993) = .ok 9007199254740992) ∧
    ((Value.float64 (.fin false 4503599627370496 11)).isFloatKind = true ∧
      F64.toRat (.fin false 4503599627370496 11) = some 9223372036854775808 ∧
      truncQ 9223372036854775808 = 9223372036854775808 ∧
      ∀ impl, toIntToFloat impl (.float64 (.fin false 4503599627370496 11))
        ≠ .ok 9223372036854775808) := by
  refine ⟨⟨rfl, rfl, fun impl => ?_⟩, rfl, ?_, ?_, fun impl => ?_⟩
  · have h : toFloat (.int 9007199254740993) = .ok (.fin false 4503599627370496 1) := by rfl
    have ht : F64.trunc (.fin false 4503599627370496 1) = some 9007199254740992 := by decide
    simp only [toIntToFloat, h, toInt, F64.toInt64, ht]
    rw [if_pos (by decide)]
  · simp [F64.toRat, F64.signed]; norm_num
  · have h : (9223372036854775808 : ℚ) = ((9223372036854775808 : Int) : ℚ) := by norm_num
    unfold truncQ
    rw [if_pos (by norm_num), h, Int.floor_intCast]
  · have ht : F64.trunc (.fin false 4503599627370496 11) = some 9223372036854775808 := by decide
    simp only [toIntToFloat, toFloat, toInt, F64.toInt64, ht]
    rw [if_neg (by decide)]
    intro h
    have h1 := isInt64_wrap64 (impl (.fin false 4503599627370496 11))
    simp only [Except.ok.injEq] at h
    rw [h] at h1
    exact absurd h1 (by decide)

/-- C5, amended: for an integer-kind `x` of magnitude at most `2^53`,
`toInt(toFloat(x))` is `x`; for a finite float-kind `x` whose truncation toward
zero is an `int64`, `toInt(toFloat(x))` is that truncation. -/
theorem toInt_toFloat (impl : F64 → Int) (x : Value) :
    (∀ n, x.isIntKind = true → toInt impl x = .ok n → |n| ≤ 9007199254740992 →
      toIntToFloat impl x = .ok n) ∧
    (∀ f q, x = .float32 f ∨ x = .float64 f → F64.toRat f = some q → isInt64 (truncQ q) →
      toIntToFloat impl x = .ok (truncQ q)) := by
  constructor
  · intro n hk hn hb
    cases x <;> simp [Value.isIntKind, Value.Kind] at hk <;>
      simp only [toInt, Except.ok.injEq] at hn <;> subst hn <;>
      simp only [toIntToFloat, toFloat, toInt, F64.toInt64_ofInt impl _ hb]
  · intro f q hx hq hr
    have ht := F64.trunc_eq_truncQ f q hq
    rcases hx with rfl | rfl <;>
      simp [toIntToFloat, toFloat, toInt, F64.toInt64, ht, hr]

/-- C5, amended, at the integer `-5` and at the float `-3.5`. -/
theorem toInt_toFloat_witness :
    toIntToFloat (fun _ => 0) (.int (-5)) = .ok (-5) ∧
    toIntToFloat (fun _ => 0) (.float64 (.fin true 7 (-1))) = .ok (-3) := by
  have hq : F64.toRat (.fin true 7 (-1)) = some (-(7 / 2) : ℚ) := by
    simp [F64.toRat, F64.signed]; norm_num
  have ht : truncQ (-(7 / 2) : ℚ) = -3 := by
    unfold truncQ
    rw [if_neg (by norm_num), Int.ceil_eq_iff]
    constructor <;> norm_num
  refine ⟨(toInt_toFloat (fun _ => 0) (.int (-5))).1 (-5) rfl rfl (by decide), ?_⟩
  have := (toInt_toFloat (fun _ => 0) (.float64 (.fin true 7 (-1)))).2 (.fin true 7 (-1))
    (-(7 / 2)) (Or.inr rfl) hq (by rw [ht]; decide)
  rw [ht] at this
  exact this

/-! ## Container builders -/

theorem tableGet_tableSet_same (m : List (Bytes × Value)) (k : Bytes) (v : Value) :
    tableGet (tableSet m k v) k = some v := by
  induction m with
  | nil => simp [tableSet, tableGet]
  | cons p rest ih =>
    obtain ⟨k1, v1⟩ := p
    unfold tableSet
    by_cases h : k1 = k
    · simp [h, tableGet]
    · simp [h, tableGet, ih]

theorem tableGet_tableSet_other (m : List (Bytes × Value)) (k k1 : Bytes) (v : Value)
    (hne : k1 ≠ k) : tableGet (tableSet m k v) k1 = tableGet m k1 := by
  induction m with
  | nil => simp [tableSet, tableGet, Ne.symm hne]
  | cons p rest ih =>
    obtain ⟨k2, v2⟩ := p
    unfold tableSet
    by_cases h : k2 = k
    · subst h
      simp [tableGet, Ne.symm hne]
    · simp only [h, if_false, tableGet, ih]

theorem tableSet_idem (m : List (Bytes × Value)) (k : Bytes) (v : Value) :
    tableSet (tableSet m k v) k v = tableSet m k v := by
  induction m with
  | nil => simp [tableSet]
  | cons p rest ih =>
    obtain ⟨k1, v1⟩ := p
    by_cases h : k1 = k
    · simp [tableSet, h]
    · simp [tableSet, h, ih]

/-- C9 as stated fails on the nil map: the assignment `mp[k] = vl` panics, so
there is no resulting mapping that maps `k` to `1`. -/
theorem pushToMap_nil_panics :
    pushToMap emptyHeap none (bytesOf "k") (.int 1) = .error .nilMapAssignment ∧
    ¬ ∃ hp1 m1, pushToMap emptyHeap none (bytesOf "k") (.int 1) = .ok (hp1, m1) := by
  refine ⟨rfl, ?_⟩
  rintro ⟨hp1, m1, h⟩
  simp [pushToMap] at h

/-- C9, amended: on every map that is not nil, `pushToMap` with the same key
and value is idempotent (the second call returns what the first returned);
the call returns the map that was passed in, which then maps `k` to `v`,
agrees with the original on every other key, and no other map and no array is
changed. -/
theorem pushToMap_idempotent (hp : Heap) (r : Nat) (k : Bytes) (vl : Value) :
    pushToMapTwice hp (some r) k vl = pushToMap hp (some r) k vl ∧
    ∃ hp1,
      pushToMap hp (some r) k vl = .ok (hp1, some r) ∧
      tableGet (hp1.tables r) k = some vl ∧
      (∀ k1, k1 ≠ k → tableGet (hp1.tables r) k1 = tableGet (hp.tables r) k1) ∧
      (∀ r1, r1 ≠ r → hp1.tables r1 = hp.tables r1) ∧
      hp1.cells = hp.cells := by
  constructor
  · simp only [pushToMapTwice, pushToMap, if_true, tableSet_idem]
    have h : (fun a => if a = r then tableSet (hp.tables r) k vl
          else if a = r then tableSet (hp.tables r) k vl else hp.tables a)
        = fun a => if a = r then tableSet (hp.tables r) k vl else hp.tables a := by
      funext a
      by_cases h : a = r <;> simp [h]
    rw [h]
  · refine ⟨_, rfl, ?_, ?_, ?_, rfl⟩
    · simp [tableGet_tableSet_same]
    · intro k1 hk1
      simp [tableGet_tableSet_other _ _ _ _ hk1]
    · intro r1 hr1
      simp [hr1]

/-- C9, amended, on a fresh map: after `createMap`, `pushToMap` of `k -> 1`
returns the map, which other keys do not see: `j` is still unset. -/
theorem pushToMap_idempotent_witness :
    ∃ hp1, pushToMap (createMap emptyHeap).1 (some 0) (bytesOf "k") (.int 1) = .ok (hp1, some 0) ∧
      tableGet (hp1.tables 0) (bytesOf "k") = some (.int 1) ∧
      tableGet (hp1.tables 0) (bytesOf "j") = none :=
  have ⟨hp1, h1, h2, h3, _⟩ :=
    (pushToMap_idempotent (createMap emptyHeap).1 0 (bytesOf "k") (.int 1)).2
  ⟨hp1, h1, h2, (h3 (bytesOf "j") (by decide)).trans rfl⟩

/-- C8: `pushToArray` (a total function) returns a slice whose elements are
those of `arr` followed by `vl`, of length `len(arr) + 1`; and for a slice
`arr` that the heap holds, the elements seen through the header `arr` after the
call are the ones seen before it. -/
theorem pushToArray_appends (grow : Nat → Nat) (hp : Heap) (arr : SliceHdr) (vl : Value) :
    (pushToArray grow hp arr vl).1.elems (pushToArray grow hp arr vl).2 = hp.elems arr ++ [vl] ∧
    (pushToArray grow hp arr vl).2.len = arr.len + 1 ∧
    (hp.validSlice arr → (pushToArray grow hp arr vl).1.elems arr = hp.elems arr) := by
  unfold pushToArray
  by_cases hc : arr.len < arr.cap
  · simp only [hc, if_true, Heap.elems, List.range_succ, List.map_append, List.map_cons,
      List.map_nil]
    refine ⟨?_, trivial, fun _ => ?_⟩
    · congr 1
      · apply List.map_congr_left
        intro i hi
        have : i < arr.len := List.mem_range.mp hi
        have hne : ¬ i = arr.len := by omega
        simp [hne]
    · apply List.map_congr_left
      intro i hi
      have : i < arr.len := List.mem_range.mp hi
      have hne : ¬ i = arr.len := by omega
      simp [hne]
  · simp only [hc, if_false, Heap.elems, List.range_succ, List.map_append, List.map_cons,
      List.map_nil]
    refine ⟨?_, trivial, fun hv => ?_⟩
    · congr 1
      · apply List.map_congr_left
        intro i hi
        have : i < arr.len := List.mem_range.mp hi
        simp [this]
      · simp
    · apply List.map_congr_left
      intro i hi
      have hi1 : i < arr.len := List.mem_range.mp hi
      obtain ⟨h1, h2⟩ := hv
      have : arr.arr ≠ hp.nextArr := by omega
      simp [this]

/-- C8 on a slice of length one with spare capacity: the element `8` is stored
in place and the slice header passed in still denotes `[7]`. -/
theorem pushToArray_appends_witness :
    (pushToArray (fun _ => 0) spareHeap ⟨0, 0, 1, 2⟩ (.int 8)).1.elems ⟨0, 0, 1, 2⟩ = [.int 7] :=
  ((pushToArray_appends (fun _ => 0) spareHeap ⟨0, 0, 1, 2⟩ (.int 8)).2.2
    ⟨by decide, Or.inr (by decide)⟩).trans rfl

/-! ## `strQuote` -/

/-- A rune decoded from a non-empty string has a width of at least one byte. -/
theorem decodeRune_width_pos (b0 : Nat) (rest : Bytes) : 1 ≤ (decodeRune (b0 :: rest)).2 := by
  unfold decodeRune
  simp only
  repeat' split
  all_goals simp

/-- The escaped body does not depend on the fuel once the fuel covers the
length of the input. -/
theorem quoteLoop_fuel (table : Nat → Bool) (f1 : Nat) :
    ∀ (f2 : Nat) (s : Bytes), s.length ≤ f1 → s.length ≤ f2 →
      quoteLoop table f1 s = quoteLoop table f2 s := by
  induction f1 with
  | zero =>
    intro f2 s h1 _
    have hs : s = [] := List.length_eq_zero.mp (by omega)
    subst hs
    cases f2 <;> simp [quoteLoop]
  | succ f ih =>
    intro f2 s h1 h2
    cases s with
    | nil => cases f2 <;> simp [quoteLoop]
    | cons b0 rest =>
      cases f2 with
      | zero => simp at h2
      | succ g =>
        simp only [List.length_cons] at h1 h2
        have hw : 1 ≤ (if b0 < 128 then (b0, 1) else decodeRune (b0 :: rest)).2 := by
          split
          · simp
          · exact decodeRune_width_pos b0 rest
        have hlen : ((b0 :: rest).drop
            (if b0 < 128 then (b0, 1) else decodeRune (b0 :: rest)).2).length ≤ rest.length := by
          rw [List.length_drop, List.length_cons]
          omega
        simp only [quoteLoop]
        rw [ih g rest (by omega) (by omega), ih g _ (by omega) (by omega)]

/-- C10: `strQuote` never fails. The quoted form has at least two bytes, so the
slice `s[1:len(s)-1]` is in bounds (also for the empty string), and the result
is the quoted form without its first and last byte, the two `"` delimiters:
`Quote(data) = " ++ strQuote(data) ++ "`. The escaped body is the same for
every fuel from `len(data)` on. On `a"b` the result is `a\"b`. -/
theorem strQuote_strips_delimiters (table : Nat → Bool) (data : Bytes) :
    (∃ body, strQuote table data = .ok body ∧ Quote table data = 34 :: body ++ [34]) ∧
    2 ≤ (Quote table data).length ∧
    strQuote table data = .ok (quoteLoop table data.length data) ∧
    (∀ fuel, data.length ≤ fuel →
      quoteLoop table fuel data = quoteLoop table data.length data) ∧
    strQuote table [] = .ok [] ∧
    strQuote table [97, 34, 98] = .ok [97, 92, 34, 98] := by
  have hs : strQuote table data = .ok (quoteLoop table data.length data) := by
    unfold strQuote sliceStr Quote
    have hlen : (34 :: quoteLoop table data.length data ++ [34]).length
        = (quoteLoop table data.length data).length + 2 := by simp
    simp only [hlen]
    rw [if_pos ⟨by norm_num, by omega, by omega⟩]
    have h1 : (((quoteLoop table data.length data).length + 2 : Nat) : Int) - 1
        = (((quoteLoop table data.length data).length + 1 : Nat) : Int) := by push_cast; ring
    rw [h1]
    simp
  refine ⟨⟨_, hs, rfl⟩, by simp [Quote], hs, ?_, rfl, rfl⟩
  intro fuel hf
  exact quoteLoop_fuel table fuel data.length data hf (le_refl _)

/-- C10 with twice the fuel on `a"b`: the escaped body is the same. -/
theorem strQuote_strips_delimiters_witness :
    quoteLoop (fun _ => true) 6 [97, 34, 98] = quoteLoop (fun _ => true) 3 [97, 34, 98] :=
  (strQuote_strips_delimiters (fun _ => true) [97, 34, 98]).2.2.2.1 6 (by decide)

end Template
